import Mathlib

/-!
Verification development for the cargo package-state reconciler module
(plugins/modules/cargo.py).  The Python module is shallowly embedded:
dictionaries become association lists, fallible code returns Except,
and the external collaborators (subprocess execution, filesystem stat,
remote VCS queries) become explicit function or data parameters.
-/

set_option maxRecDepth 4000

/-- A Python value as it occurs in the git metadata dictionaries of the
module: the value None, a string, or a list of strings (the shape produced
by parse_qs for URL query parameters). -/
inductive PyVal where
  | vnone : PyVal
  | vstr : String → PyVal
  | vlist : List String → PyVal
deriving DecidableEq, Repr

/-- Python truthiness for the values above: None and empty containers are
falsy. -/
def PyVal.truthy : PyVal → Bool
  | PyVal.vnone => false
  | PyVal.vstr s => decide (s ≠ "")
  | PyVal.vlist l => decide (l ≠ [])

/-- Rendering of a PyVal into a string, as Python f-string interpolation
would do for the string case (the only case exercised by the module). -/
def PyVal.asStr : PyVal → String
  | PyVal.vnone => "None"
  | PyVal.vstr s => s
  | PyVal.vlist l => String.intercalate ", " l

/-- A Python dictionary with string keys, embedded as an association list
in insertion order. -/
abbrev PyDict := List (String × PyVal)

/-- First-match association-list lookup, the embedding of dict subscript
and dict.get. -/
def alookup {α : Type} (k : String) : List (String × α) → Option α
  | [] => Option.none
  | (k2, v) :: rest => if k2 = k then Option.some v else alookup k rest

/-- Embedding of Python dict assignment d[k] = v: replace the value in
place when the key exists, else append the new pair. -/
def dinsert {α : Type} (k : String) (v : α) : List (String × α) → List (String × α)
  | [] => [(k, v)]
  | (k2, v2) :: rest =>
    if k2 = k then (k2, v) :: rest else (k2, v2) :: dinsert k v rest

/-- Python dictionary equality: same keys with equal values, regardless of
insertion order (association lists built by the module have no duplicate
keys). -/
def dictEq (a b : PyDict) : Bool :=
  a.all (fun kv => decide (alookup kv.1 b = Option.some kv.2)) &&
  b.all (fun kv => decide (alookup kv.1 a = Option.some kv.2))

/-- Truthiness of an optional string parameter, as Python evaluates it:
None and the empty string are falsy. -/
def strOptTruthy : Option String → Bool
  | Option.none => false
  | Option.some s => decide (s ≠ "")

/-- Extraction of a truthy string value from a dict lookup, the embedding
of the pattern: if d.get(k): use d[k] as a string. -/
def truthyStr (v : Option PyVal) : Option String :=
  match v with
  | Option.some w => if w.truthy then Option.some w.asStr else Option.none
  | Option.none => Option.none

/-! ## Package identifier parsing

The persisted state file keys packages by an identifier string matched in
get_installed against the regular expression

  (?P<name>[^ ]+) +(?P<version>[^ ]+) +\((?P<kind>[^+]+)\+(?P<url>[^)]+)\)

applied with re.search.  For this pattern greedy matching never needs to
backtrack into a character class (each class excludes the character that
must follow it), so the match at a position is maximal-munch, and search
tries successive start positions left to right. -/

structure PkgIdParts where
  name : String
  version : String
  kind : String
  url : String
deriving DecidableEq, Repr

/-- Attempt to match the package identifier pattern anchored at the head
of the character list. -/
def matchPkgidAt (cs : List Char) : Option PkgIdParts :=
  let name := cs.takeWhile (fun c => c ≠ ' ')
  let r1 := cs.dropWhile (fun c => c ≠ ' ')
  let sp1 := r1.takeWhile (fun c => c = ' ')
  let r2 := r1.dropWhile (fun c => c = ' ')
  let ver := r2.takeWhile (fun c => c ≠ ' ')
  let r3 := r2.dropWhile (fun c => c ≠ ' ')
  let sp2 := r3.takeWhile (fun c => c = ' ')
  let r4 := r3.dropWhile (fun c => c = ' ')
  if name = [] ∨ sp1 = [] ∨ ver = [] ∨ sp2 = [] then Option.none
  else
    match r4 with
    | '(' :: r5 =>
      let kind := r5.takeWhile (fun c => c ≠ '+')
      let r6 := r5.dropWhile (fun c => c ≠ '+')
      match r6 with
      | '+' :: r7 =>
        let url := r7.takeWhile (fun c => c ≠ ')')
        let r8 := r7.dropWhile (fun c => c ≠ ')')
        match r8 with
        | ')' :: _ =>
          if kind = [] ∨ url = [] then Option.none
          else Option.some ⟨⟨name⟩, ⟨ver⟩, ⟨kind⟩, ⟨url⟩⟩
        | _ => Option.none
      | _ => Option.none
    | _ => Option.none

/-- re.search over the identifier pattern: try each start position from
the left and return the first match. -/
def pkgidSearch : List Char → Option PkgIdParts
  | [] => matchPkgidAt []
  | c :: rest =>
    match matchPkgidAt (c :: rest) with
    | Option.some r => Option.some r
    | Option.none => pkgidSearch rest

/-! ## URL splitting (urlparse) and query parsing (parse_qs) -/

/-- Split a character list at the first occurrence of a character,
returning the part before it and, when found, the part after it. -/
def splitFirstChar (ch : Char) : List Char → (List Char × Option (List Char))
  | [] => ([], Option.none)
  | c :: rest =>
    if c = ch then ([], Option.some rest)
    else
      let p := splitFirstChar ch rest
      (c :: p.1, p.2)

/-- Skip everything through the first scheme separator.  Returns the
remainder after the separator when one exists. -/
def afterSchemeSep : List Char → Option (List Char)
  | ':' :: '/' :: '/' :: rest => Option.some rest
  | _ :: rest => afterSchemeSep rest
  | [] => Option.none

structure UrlParts where
  path : String
  query : String
  fragment : String
deriving DecidableEq, Repr

/-- Embedding of urllib.parse.urlparse restricted to the components the
module reads (path, query, fragment) for URLs of the shape
scheme://netloc/path?query#fragment. -/
def urlparseChars (cs : List Char) : UrlParts :=
  let f := splitFirstChar '#' cs
  let frag := (f.2).getD []
  let q := splitFirstChar '?' f.1
  let query := (q.2).getD []
  let path :=
    match afterSchemeSep q.1 with
    | Option.some rest => rest.dropWhile (fun c => c ≠ '/')
    | Option.none => q.1
  ⟨⟨path⟩, ⟨query⟩, ⟨frag⟩⟩

def urlparseStr (s : String) : UrlParts := urlparseChars s.data

/-- Split a character list on a separator character, keeping empty
pieces, matching the Python str.split behaviour with an explicit
separator. -/
def splitOnChar (ch : Char) : List Char → List (List Char)
  | [] => [[]]
  | c :: rest =>
    let r := splitOnChar ch rest
    if c = ch then [] :: r
    else
      match r with
      | [] => [[c]]
      | h :: t => (c :: h) :: t

/-- Append a query value to the entry for a key, creating the entry at the
end when the key is new: the accumulation behaviour of parse_qs. -/
def qsInsert (k : String) (v : String) : List (String × List String) → List (String × List String)
  | [] => [(k, [v])]
  | (k2, vs) :: rest =>
    if k2 = k then (k2, vs ++ [v]) :: rest else (k2, vs) :: qsInsert k v rest

/-- Embedding of urllib.parse.parse_qs with default options: split the
query on ampersands, keep only pairs that contain an equals sign and a
non-empty value, collect values into per-key lists. -/
def parseQs (cs : List Char) : List (String × List String) :=
  (splitOnChar '&' cs).foldl
    (fun acc pair =>
      let p := splitFirstChar '=' pair
      match p.2 with
      | Option.some v => if v = [] then acc else qsInsert ⟨p.1⟩ ⟨v⟩ acc
      | Option.none => acc)
    []

/-! ## The installed-package record -/

/-- The opaque mapping of OS stat fields recorded for one installed
binary. -/
abbrev StatObj := List (String × Int)

/-- The per-package metadata stored in the persisted state file entry
(the fields of the .crates2.json installs values that the module reads,
plus the remaining fields kept opaque). -/
structure CrateMeta where
  features : List String
  no_default_features : Bool
  bins : List String
  extra : List (String × String)
deriving DecidableEq, Repr

/-- One installed-package record as get_installed builds it.  Python
represents the record as a dict; optional fields model keys that may be
absent (Option.none stands for an absent key), which makes structural
equality of records agree with Python dict equality. -/
structure PackageRecord where
  name : String
  version : Option String
  kind : Option String
  url : Option String
  directory : Option String
  git : Option PyDict
  rev : Option String
  features : Option (List String)
  default_features : Option Bool
  bins : Option (List String)
  bin_stats : Option (List (String × StatObj))
  extra : List (String × String)
deriving DecidableEq, Repr

/-- The record standing for the bare dict containing only a name, used by
the latest-state flow for packages that are not installed. -/
def nameOnlyRecord (n : String) : PackageRecord :=
  ⟨n, Option.none, Option.none, Option.none, Option.none, Option.none,
   Option.none, Option.none, Option.none, Option.none, Option.none, []⟩

/-- An inventory: mapping from package name to record, in insertion
order. -/
abbrev Inventory := List (String × PackageRecord)

/-- The git metadata dictionary extracted in get_installed for a
git-kind package: the URL query parameters (as string lists, the parse_qs
shape) updated with the URL fragment as the rev value.  Returns none when
the dictionary would be empty, which get_installed treats as a fatal
error. -/
def buildGitMeta (u : UrlParts) : Option PyDict :=
  let qs := if u.query ≠ "" then parseQs u.query.data else []
  let gm : PyDict := qs.map (fun kv => (kv.1, PyVal.vlist kv.2))
  let gm := if u.fragment ≠ "" then dinsert "rev" (PyVal.vstr u.fragment) gm else gm
  if gm = [] then Option.none else Option.some gm

/-- Build one installed-package record from the parsed identifier and the
stored metadata, probing binaries through the stat collaborator (none
means the file does not exist). -/
def buildRecord (parts : PkgIdParts) (meta : CrateMeta)
    (stat : String → Option StatObj) : Except String PackageRecord :=
  let u := urlparseStr parts.url
  let dirOpt : Option String :=
    if parts.kind = "path" ∧ u.path ≠ "" then Option.some u.path else Option.none
  let gitRes : Except String (Option PyDict) :=
    if parts.kind = "git" then
      match buildGitMeta u with
      | Option.none => Except.error ("unexpected git package identifier: " ++ parts.url)
      | Option.some gm => Except.ok (Option.some gm)
    else Except.ok Option.none
  match gitRes with
  | Except.error e => Except.error e
  | Except.ok gitOpt =>
    Except.ok
      { name := parts.name
        version := Option.some parts.version
        kind := Option.some parts.kind
        url := Option.some parts.url
        directory := dirOpt
        git := gitOpt
        rev := Option.none
        features := Option.some meta.features
        default_features := Option.some (!meta.no_default_features)
        bins := Option.some meta.bins
        bin_stats := Option.some
          (meta.bins.filterMap (fun b => (stat b).map (fun s => (b, s))))
        extra := meta.extra }

/-- The loop body of get_installed over the entries of the persisted
state file: parse each identifier (failing the whole read on a
non-matching one), skip packages not named in the invocation when names
were given, and insert the built record keyed by name. -/
def getInstalledAux (names : List String) (stat : String → Option StatObj) :
    List (String × CrateMeta) → Inventory → Except String Inventory
  | [], inv => Except.ok inv
  | (pkgid, meta) :: rest, inv =>
    match pkgidSearch pkgid.data with
    | Option.none => Except.error ("unexpected format: " ++ pkgid)
    | Option.some parts =>
      if names ≠ [] ∧ parts.name ∉ names then
        getInstalledAux names stat rest inv
      else
        match buildRecord parts meta stat with
        | Except.error e => Except.error e
        | Except.ok r => getInstalledAux names stat rest (dinsert parts.name r inv)

/-- Embedding of Cargo.get_installed: read the persisted state entries
into an inventory (the state file contents and the filesystem stat
collaborator are passed explicitly). -/
def get_installed (crates : List (String × CrateMeta)) (names : List String)
    (stat : String → Option StatObj) : Except String Inventory :=
  getInstalledAux names stat crates []

/-- The names of the state-file entries whose identifier parses, in file
order. -/
def parsedNames (crates : List (String × CrateMeta)) : List String :=
  crates.filterMap (fun c => (pkgidSearch c.1.data).map (fun p => p.name))

/-! ## The desired-state declaration -/

/-- The module parameters relevant to the reconciliation engine, as main
reads them from the framework (defaults as in the argument spec: state
present, locked false, features empty, default_features true).  The git
parameter, when supplied, is the suboption dictionary; the framework
fills unspecified suboptions with None values. -/
structure Params where
  names : List String
  state : String
  version : Option String
  directory : Option String
  features : List String
  default_features : Bool
  git : Option PyDict
  argv : List String
  locked : Bool
  path : Option String
  bin : Option String
deriving Repr

/-- The keys of the desired git dictionary, the embedding of
git_fields = set(git.keys()) if git else the empty set. -/
def gitKeys (p : Params) : List String :=
  match p.git with
  | Option.some g => g.map (fun kv => kv.1)
  | Option.none => []

/-- The subset of an installed record git metadata restricted to the
keys of the desired git dictionary (the inner comprehension of
git_installed_fields for a package that is installed). -/
def restrictGit (p : Params) (r : PackageRecord) : PyDict :=
  (r.git.getD []).filter (fun kv => kv.1 ∈ gitKeys p)

/-- Embedding of the git_installed_fields dict comprehension in main for
state present.  For every requested name the comprehension subscripts
installed_packages before the membership guard in the filter position can
apply, so a name that is not installed raises KeyError, which this
embedding surfaces as an error. -/
def gitInstalledFields (p : Params) (inv : Inventory) :
    List String → Except String (List (String × PyDict))
  | [] => Except.ok []
  | n :: rest =>
    match alookup n inv with
    | Option.none => Except.error ("KeyError: " ++ n)
    | Option.some r =>
      match gitInstalledFields p inv rest with
      | Except.error e => Except.error e
      | Except.ok acc => Except.ok ((n, restrictGit p r) :: acc)

/-- The per-package condition of the to_install comprehension in main for
state present, given the record looked up for the name (none when the
name is absent from the inventory). -/
def needsAction (p : Params) (gif : List (String × PyDict)) (n : String)
    (ropt : Option PackageRecord) : Bool :=
  match ropt with
  | Option.none => true
  | Option.some r =>
    (strOptTruthy p.version && decide (p.version ≠ r.version))
    || (match p.git with
        | Option.some g =>
          decide (g ≠ []) &&
            !(match alookup n gif with
              | Option.some d => dictEq g d
              | Option.none => false)
        | Option.none => false)
    || (decide (p.features ≠ []) && decide (Option.some p.features ≠ r.features))
    || (p.default_features && decide (Option.some p.default_features ≠ r.default_features))
    || decide (p.argv ≠ [])

/-- Embedding of the state present comparison in main: build
git_installed_fields, then filter the requested names by the to_install
condition. -/
def toInstall (p : Params) (inv : Inventory) : Except String (List String) :=
  match gitInstalledFields p inv p.names with
  | Except.error e => Except.error e
  | Except.ok gif =>
    Except.ok (p.names.filter (fun n => needsAction p gif n (alookup n inv)))

/-! ## The inventory differ -/

structure DiffEntry where
  before : Option PackageRecord
  after : Option PackageRecord
deriving DecidableEq, Repr

/-- Append a record to the union list when an equal record is not already
present (the union deduplication loop of _diff_installed_packages). -/
def addRec (acc : List PackageRecord) (r : PackageRecord) : List PackageRecord :=
  if r ∈ acc then acc else acc ++ [r]

/-- The deduplicated union of the record values of both inventories, in
first-occurrence order. -/
def unionRecords (before after : Inventory) : List PackageRecord :=
  ((before.map Prod.snd) ++ (after.map Prod.snd)).foldl addRec []

/-- Set insertion for the sym_diff name set, keeping insertion order. -/
def addName (n : String) (l : List String) : List String :=
  if n ∈ l then l else l ++ [n]

/-- The loop of _diff_installed_packages that fills the sym_diff set: for
each union record, skip when both inventories hold the name with equal
records, otherwise add the name from each side that holds it. -/
def symDiffAux (before after : Inventory) :
    List PackageRecord → List String → List String
  | [], acc => acc
  | r :: rest, acc =>
    let bp := alookup r.name before
    let ap := alookup r.name after
    let acc2 :=
      match bp, ap with
      | Option.some b, Option.some a =>
        if b = a then acc else addName a.name (addName b.name acc)
      | Option.some b, Option.none => addName b.name acc
      | Option.none, Option.some a => addName a.name acc
      | Option.none, Option.none => acc
    symDiffAux before after rest acc2

/-- The contents of the sym_diff set, enumerated in insertion order. -/
def symDiff (before after : Inventory) : List String :=
  symDiffAux before after (unionRecords before after) []

/-- The final comprehension of _diff_installed_packages, parameterised by
the enumeration order of the sym_diff set: Python iterates a hash set,
which guarantees only that each member appears exactly once. -/
def diffEntries (before after : Inventory) (enum : List String) : List DiffEntry :=
  enum.map (fun n => ⟨alookup n before, alookup n after⟩)

/-- A list is a possible iteration order of the sym_diff set: no
duplicates and the same membership. -/
def isEnumOf (before after : Inventory) (e : List String) : Bool :=
  e.Nodup && e.all (fun n => n ∈ symDiff before after)
    && (symDiff before after).all (fun n => n ∈ e)

/-- Well-formedness of an inventory as produced by get_installed: every
record is keyed by its own name. -/
def wfInv (inv : Inventory) : Bool :=
  inv.all (fun kv => kv.2.name = kv.1)

/-! ## Result assembly -/

/-- The changed flag computed at the end of main: the diff is non-empty,
or the state is not absent and raw extra arguments were supplied. -/
def changedFlag (diff : List DiffEntry) (state : String) (argv : List String) : Bool :=
  decide (diff ≠ []) || (decide (state ≠ "absent") && decide (argv ≠ []))

/-- The warnings list attached to the result: exactly one fixed message
when raw extra arguments were supplied, nothing otherwise. -/
def warningsOf (argv : List String) : List String :=
  if argv ≠ [] then ["changes are always assumed when using argv"] else []

/-- The per-entry bin_stats stripping performed under diff mode: pop the
bin_stats key from the before and after payloads.  Python calls pop on
the dict objects directly, so an absent record (the None side of an
added or removed package) raises AttributeError. -/
def stripDiffEntry (e : DiffEntry) : Except String DiffEntry :=
  match e.before, e.after with
  | Option.some b, Option.some a =>
    Except.ok ⟨Option.some { b with bin_stats := Option.none },
               Option.some { a with bin_stats := Option.none }⟩
  | _, _ =>
    Except.error "AttributeError: NoneType object has no attribute pop"

/-- Strip bin_stats from every reported diff entry. -/
def stripDiff : List DiffEntry → Except String (List DiffEntry)
  | [] => Except.ok []
  | e :: rest =>
    match stripDiffEntry e with
    | Except.error m => Except.error m
    | Except.ok e2 =>
      match stripDiff rest with
      | Except.error m => Except.error m
      | Except.ok rest2 => Except.ok (e2 :: rest2)

/-! ## The install command builder -/

/-- Embedding of Cargo.install up to the point where the command list is
complete: returns the argument list handed to the executor, or the
fail-fast error raised when more than one package is combined with a git
source.  The error is raised before the command is executed. -/
def installCmd (p : Params) (packages : Option (List String)) : Except String (List String) :=
  let targets :=
    match packages with
    | Option.some l => if l ≠ [] then l else p.names
    | Option.none => p.names
  let cmd := ["install"] ++ targets
  let cmd := if p.locked then cmd ++ ["--locked"] else cmd
  let cmd := if strOptTruthy p.path then cmd ++ ["--root", p.path.getD ""] else cmd
  let cmd := if strOptTruthy p.version then cmd ++ ["--version", (p.version).getD ""] else cmd
  let cmd := if strOptTruthy p.directory then cmd ++ ["--path", (p.directory).getD ""] else cmd
  let cmd := if p.features ≠ [] then cmd ++ ["--features", String.intercalate "," p.features] else cmd
  let cmd := if !p.default_features then cmd ++ ["--no-default-features"] else cmd
  let tailArgs := fun (c : List String) =>
    let c := if strOptTruthy p.bin then c ++ ["--bin", (p.bin).getD ""] else c
    c ++ p.argv
  match p.git with
  | Option.some g =>
    if decide (g ≠ []) then
      if (match packages with
          | Option.some l => decide (l ≠ []) && decide (l.length > 1)
          | Option.none => false) || decide (p.names.length > 1) then
        Except.error "Cannot do multiple git installs at a time. Please specify only one package."
      else
        let cmd := cmd ++ ["--git", ((truthyStr (alookup "url" g)).getD "")]
        let cmd := match truthyStr (alookup "tag" g) with
                   | Option.some t => cmd ++ ["--tag", t]
                   | Option.none => cmd
        let cmd := match truthyStr (alookup "branch" g) with
                   | Option.some b => cmd ++ ["--branch", b]
                   | Option.none => cmd
        let cmd := match truthyStr (alookup "rev" g) with
                   | Option.some rv => cmd ++ ["--rev", rv]
                   | Option.none => cmd
        Except.ok (tailArgs cmd)
    else Except.ok (tailArgs cmd)
  | Option.none => Except.ok (tailArgs cmd)

/-- Cargo.install together with the executor collaborator: the result of
building the command, paired with the list of subprocess invocations
actually executed (the _exec wrapper skips execution in check mode, and
the fail-fast error aborts before any execution). -/
def installRun (p : Params) (packages : Option (List String)) (checkMode : Bool) :
    Except String (List String) × List (List String) :=
  match installCmd p packages with
  | Except.error e => (Except.error e, [])
  | Except.ok cmd => (Except.ok cmd, if checkMode then [] else [cmd])

/-! ## The latest resolver -/

/-- Python str.strip character class (whitespace). -/
def isPySpace (c : Char) : Bool :=
  c = ' ' || c = '\t' || c = '\n' || c = '\r' || c = '\x0b' || c = '\x0c'

/-- Embedding of str.strip: drop whitespace from both ends. -/
def pyStrip (cs : List Char) : List Char :=
  ((cs.dropWhile isPySpace).reverse.dropWhile isPySpace).reverse

/-- The first regex group of re.search applied with the quoted-substring
pattern to the registry search output: the text between the first quote
and the last quote, provided at least one character lies between them. -/
def quotedGroup (cs : List Char) : Option String :=
  let p := splitFirstChar '"' cs
  match p.2 with
  | Option.none => Option.none
  | Option.some afterFirst =>
    let r := splitFirstChar '"' afterFirst.reverse
    match r.2 with
    | Option.none => Option.none
    | Option.some beforeLastRev =>
      let grp := beforeLastRev.reverse
      if grp = [] then Option.none else Option.some ⟨grp⟩

/-- Embedding of Cargo.get_latest_published_version, with the registry
search output supplied by the executor collaborator. -/
def get_latest_published_version (pkg : PackageRecord) (searchOut : String) :
    Except String PackageRecord :=
  match quotedGroup searchOut.data with
  | Option.none =>
    Except.error ("No published version for package " ++ pkg.name ++ " found")
  | Option.some v => Except.ok { pkg with version := Option.some v }

/-- Embedding of Cargo.get_source_directory_version, with the parsed
manifest package list (name and version pairs) supplied by the executor
collaborator. -/
def get_source_directory_version (pkg : PackageRecord) (dir : String)
    (manifest : List (String × String)) : Except String PackageRecord :=
  match alookup pkg.name manifest with
  | Option.none =>
    Except.error ("Package " ++ pkg.name ++ " not defined in source")
  | Option.some v =>
    Except.ok { pkg with version := Option.some v, directory := Option.some dir }

/-- Embedding of Cargo.get_latest_git_oid, with the git ls-remote output
supplied by the executor collaborator.  The reference is selected by
reading the key named tags (which the git options dictionary never
contains, since the option is named tag) and then the branch key; when
neither yields a truthy value the local variable ref is left unassigned
and Python raises at the point of use. -/
def get_latest_git_oid (git : PyDict) (pkg : PackageRecord) (lsRemoteOut : String) :
    Except String PackageRecord :=
  let refE : Except String String :=
    match truthyStr (alookup "tags" git) with
    | Option.some t => Except.ok ("refs/tags/" ++ t)
    | Option.none =>
      match truthyStr (alookup "branch" git) with
      | Option.some b => Except.ok ("refs/heads/" ++ b)
      | Option.none =>
        Except.error "UnboundLocalError: local variable ref referenced before assignment"
  match refE with
  | Except.error e => Except.error e
  | Except.ok ref =>
    let out := pyStrip lsRemoteOut.data
    if out = [] then
      Except.error ("remote " ++ ((truthyStr (alookup "url" git)).getD "") ++
        " does not have ref: " ++ ref)
    else
      match splitOnChar '\t' (pyStrip out) with
      | [oid, _refName] =>
        let newGit := dinsert "rev" (PyVal.vstr ⟨oid⟩) (git.filter (fun kv => kv.2.truthy))
        Except.ok { pkg with git := Option.some newGit }
      | _ =>
        Except.error ("got unexpected output from git ls-remote: " ++ ⟨out⟩)

/-- The outputs of the executor collaborator consumed by the latest
resolver within one invocation. -/
structure Collab where
  searchOut : String
  manifest : List (String × String)
  lsRemoteOut : String

/-- Embedding of Cargo.get_latest (without the per-name cache, which no
claim exercises): dispatch on the pinning mechanism of the invocation.
An exact git revision short-circuits by merging a top-level rev key into
the package dictionary. -/
def get_latest (p : Params) (pkg : PackageRecord) (c : Collab) :
    Except String PackageRecord :=
  if strOptTruthy p.directory then
    get_source_directory_version pkg ((p.directory).getD "") c.manifest
  else
    match p.git with
    | Option.some g =>
      if decide (g ≠ []) then
        match truthyStr (alookup "rev" g) with
        | Option.some rv => Except.ok { pkg with rev := Option.some rv }
        | Option.none => get_latest_git_oid g pkg c.lsRemoteOut
      else get_latest_published_version pkg c.searchOut
    | Option.none => get_latest_published_version pkg c.searchOut

/-- The result record assembled at the end of main (the fields the claims
speak about). -/
structure MainResult where
  changed : Bool
  installed : Inventory
  warnings : List String
  diff : Option (List DiffEntry)
deriving Repr

/-- The loop of main for state latest in check mode: project every
requested name through the latest resolver, starting from a copy of the
current inventory. -/
def latestLoop (p : Params) (c : Collab) (inv : Inventory) :
    List String → Inventory → Except String Inventory
  | [], acc => Except.ok acc
  | n :: rest, acc =>
    let pkgArg :=
      match alookup n inv with
      | Option.some r => r
      | Option.none => nameOnlyRecord n
    match get_latest p pkgArg c with
    | Except.error e => Except.error e
    | Except.ok latest => latestLoop p c inv rest (dinsert n latest acc)

/-- Embedding of main for state latest in check mode, through result
assembly: project the new inventory, diff it against the current one
(iterating the sym_diff set in its insertion-order enumeration), compute
the changed flag and warnings, and strip bin_stats from the reported diff
only when diff mode is active. -/
def mainLatestCheck (p : Params) (inv : Inventory) (c : Collab) (doDiff : Bool) :
    Except String MainResult :=
  match latestLoop p c inv p.names inv with
  | Except.error e => Except.error e
  | Except.ok newInv =>
    let diff := diffEntries inv newInv (symDiff inv newInv)
    let ch := changedFlag diff p.state p.argv
    let ws := warningsOf p.argv
    if doDiff then
      match stripDiff diff with
      | Except.error e => Except.error e
      | Except.ok d =>
        Except.ok { changed := ch, installed := newInv, warnings := ws, diff := Option.some d }
    else
      Except.ok { changed := ch, installed := newInv, warnings := ws, diff := Option.none }

/-- Whether an Except value is a success. -/
def exceptIsOk {α : Type} : Except String α → Bool
  | Except.ok _ => true
  | Except.error _ => false

/-! ## Concrete fixtures used by the claim theorems and witnesses -/

/-- Parameters with every option at its argument-spec default. -/
def presentDefaults : Params :=
  ⟨[], "present", Option.none, Option.none, [], true, Option.none, [],
   false, Option.none, Option.none⟩

/-- A git options dictionary as the framework delivers it for an
invocation specifying url and tag (unspecified suboptions filled with
None). -/
def gitSpecTag : PyDict :=
  [("url", PyVal.vstr "https://g.x/r"), ("tag", PyVal.vstr "0.6.11"),
   ("branch", PyVal.vnone), ("rev", PyVal.vnone)]

/-- A git options dictionary specifying url and an exact revision. -/
def gitSpecRev : PyDict :=
  [("url", PyVal.vstr "https://g.x/r"), ("tag", PyVal.vnone),
   ("branch", PyVal.vnone), ("rev", PyVal.vstr "a1b2c3")]

/-- A git options dictionary specifying url and branch. -/
def gitSpecBranch : PyDict :=
  [("url", PyVal.vstr "https://g.x/r"), ("tag", PyVal.vnone),
   ("branch", PyVal.vstr "main"), ("rev", PyVal.vnone)]

/-- A stat collaborator under which no probed binary exists. -/
def statNone : String → Option StatObj := fun _ => Option.none

/-- The record get_installed builds for a registry package foo 1.0.0 with
default features and no binaries. -/
def recFoo : PackageRecord :=
  { name := "foo", version := Option.some "1.0.0",
    kind := Option.some "registry", url := Option.some "https://crates.io/",
    directory := Option.none, git := Option.none, rev := Option.none,
    features := Option.some [], default_features := Option.some true,
    bins := Option.some [], bin_stats := Option.some [], extra := [] }

/-- The record get_installed builds for the same package installed with
the no-default-features flag set in the state file. -/
def recFooNdf : PackageRecord :=
  { recFoo with default_features := Option.some false }

/-- The record get_installed builds for a git-installed package whose
identifier is uv 0.6.11 (git+https://g.x/r?tag=0.6.11#a1b2): the tag
comes from the URL query (as a one-element list) and the resolved
revision from the URL fragment; no url key is recorded. -/
def recUvGit : PackageRecord :=
  { name := "uv", version := Option.some "0.6.11",
    kind := Option.some "git", url := Option.some "https://g.x/r?tag=0.6.11#a1b2",
    directory := Option.none,
    git := Option.some [("tag", PyVal.vlist ["0.6.11"]), ("rev", PyVal.vstr "a1b2")],
    rev := Option.none,
    features := Option.some [], default_features := Option.some true,
    bins := Option.some [], bin_stats := Option.some [], extra := [] }

/-- The inventory holding the git-installed uv record. -/
def invUvGit : Inventory := [("uv", recUvGit)]

/-- A present-state invocation asking for uv pinned to the same git url
and tag that the installed record came from. -/
def paramsUvPresent : Params :=
  { presentDefaults with names := ["uv"], git := Option.some gitSpecTag }

/-- Claim C3 theorem (the code at the failing input): the installed uv
record was built from a git identifier whose query tag equals the desired
tag and whose only extra field is the resolved revision from the URL
fragment, yet the state present comparison still schedules uv for
reinstallation.  The desired git dictionary is compared whole against the
restricted installed metadata, which never records a url key and stores
query values as lists, so the comparison never reports satisfaction. -/
theorem c3_git_agreeing_record_still_reinstalled :
    get_installed [("uv 0.6.11 (git+https://g.x/r?tag=0.6.11#a1b2)", ⟨[], false, [], []⟩)]
      ["uv"] statNone = Except.ok invUvGit
    ∧ alookup "tag" (restrictGit paramsUvPresent recUvGit) = Option.some (PyVal.vlist ["0.6.11"])
    ∧ alookup "url" (restrictGit paramsUvPresent recUvGit) = Option.none
    ∧ toInstall paramsUvPresent invUvGit = Except.ok ["uv"] := by
  refine ⟨rfl, by decide, by decide, rfl⟩

/-- The git metadata merged by the branch pinning path: the desired git
dictionary stripped of falsy values, updated with the resolved commit. -/
def resolvedBranchGit : PyDict :=
  [("url", PyVal.vstr "https://g.x/r"), ("branch", PyVal.vstr "main"),
   ("rev", PyVal.vstr "abc123")]

/-- Claim C6 theorem (the code at the failing input, plus the surviving
branch paths): pinning by tag crashes before any remote query because the
code reads a key named tags that the git options never contain, leaving
the ref variable unassigned; pinning by branch queries the remote and
merges the commit id, fails on empty remote output, and fails on output
that is not exactly two tab separated fields even when it is two
whitespace separated fields. -/
theorem c6_git_oid_tag_crash_and_branch_paths :
    get_latest_git_oid gitSpecTag (nameOnlyRecord "uv") "a1b2\trefs/tags/0.6.11"
      = Except.error "UnboundLocalError: local variable ref referenced before assignment"
    ∧ get_latest_git_oid gitSpecBranch (nameOnlyRecord "uv") "abc123\trefs/heads/main\n"
      = Except.ok { nameOnlyRecord "uv" with git := Option.some resolvedBranchGit }
    ∧ get_latest_git_oid gitSpecBranch (nameOnlyRecord "uv") "  \n"
      = Except.error "remote https://g.x/r does not have ref: refs/heads/main"
    ∧ get_latest_git_oid gitSpecBranch (nameOnlyRecord "uv") "abc123 refs/heads/main"
      = Except.error "got unexpected output from git ls-remote: abc123 refs/heads/main" := by
  refine ⟨rfl, rfl, rfl, rfl⟩

/-- A record for package p with some binary stats. -/
def recPStats1 : PackageRecord :=
  { recFoo with name := "p", bin_stats := Option.some [("p", [("st_size", 1)])] }

/-- The same record differing only in the binary stats. -/
def recPStats2 : PackageRecord :=
  { recPStats1 with bin_stats := Option.some [("p", [("st_size", 2)])] }

/-- Claim C7 theorem (the code at the failing input, plus the surviving
parts): inventories differing only in bin_stats still produce a diff
entry, and stripping removes the bin_stats key from both payloads when
both sides are present; but a diff entry for an added or removed package
(one side absent) makes the stripping step raise AttributeError instead
of reporting a payload without bin_stats. -/
theorem c7_binstats_diff_entry_and_strip_crash :
    recPStats1 ≠ recPStats2
    ∧ ({ recPStats1 with bin_stats := recPStats2.bin_stats } = recPStats2)
    ∧ diffEntries [("p", recPStats1)] [("p", recPStats2)]
        (symDiff [("p", recPStats1)] [("p", recPStats2)])
        = [⟨Option.some recPStats1, Option.some recPStats2⟩]
    ∧ stripDiff [⟨Option.some recPStats1, Option.some recPStats2⟩]
        = Except.ok [⟨Option.some { recPStats1 with bin_stats := Option.none },
                      Option.some { recPStats2 with bin_stats := Option.none }⟩]
    ∧ stripDiff [⟨Option.none, Option.some recPStats2⟩]
        = Except.error "AttributeError: NoneType object has no attribute pop" := by
  refine ⟨by decide, by decide, rfl, rfl, rfl⟩

/-- Records used by the differ order counterexample. -/
def recQ1 : PackageRecord := { recFoo with name := "q" }

def recQ2 : PackageRecord := { recQ1 with version := Option.some "2.0.0" }

def beforeTwo : Inventory := [("p", recPStats1), ("q", recQ1)]

def afterTwo : Inventory := [("p", recPStats2), ("q", recQ2)]

/-- Claim C8 counterexample: with two changed packages, both orders of
the sym_diff name set are possible iterations of a Python hash set, and
they yield different emitted diff lists, so the emission order is not
determined by the inputs alone. -/
theorem c8_counterexample_order_not_determined :
    isEnumOf beforeTwo afterTwo ["p", "q"] = true
    ∧ isEnumOf beforeTwo afterTwo ["q", "p"] = true
    ∧ diffEntries beforeTwo afterTwo ["p", "q"]
        ≠ diffEntries beforeTwo afterTwo ["q", "p"] := by
  refine ⟨by decide, by decide, by decide⟩

/-- The inventory holding foo installed without default features. -/
def invFooNdf : Inventory := [("foo", recFooNdf)]

/-- A plain present-state invocation for foo with every constraint at its
default. -/
def paramsFooPlain : Params := { presentDefaults with names := ["foo"] }

/-- Claim C9 counterexample: a package that is installed, requested with
state present and no version, git, features or extra arguments, is still
scheduled for reinstallation when its installed record has default
features disabled, because the default of the default_features parameter
is true and differs from the installed flag. -/
theorem c9_counterexample_ndf_record_reinstalled :
    get_installed [("foo 1.0.0 (registry+https://crates.io/)", ⟨[], true, [], []⟩)]
      ["foo"] statNone = Except.ok invFooNdf
    ∧ paramsFooPlain.version = Option.none
    ∧ paramsFooPlain.git = Option.none
    ∧ paramsFooPlain.features = []
    ∧ paramsFooPlain.argv = []
    ∧ toInstall paramsFooPlain invFooNdf = Except.ok ["foo"] := by
  refine ⟨rfl, rfl, rfl, rfl, rfl, rfl⟩

/-- Claim C4 theorem: the changed flag is true exactly when the computed
diff is non-empty or the requested state is not absent and raw extra
arguments were supplied; and whenever raw extra arguments were supplied
the result carries exactly the one fixed warning message. -/
theorem c4_changed_iff_and_single_warning (d : List DiffEntry) (st : String)
    (av : List String) :
    (changedFlag d st av = true ↔ (d ≠ [] ∨ (st ≠ "absent" ∧ av ≠ [])))
    ∧ (av ≠ [] →
        warningsOf av = ["changes are always assumed when using argv"]
        ∧ (warningsOf av).length = 1) := by
  constructor
  · simp [changedFlag]
  · intro hav
    simp [warningsOf, hav]

/-- Witness for the claim C4 theorem at a concrete input: empty diff,
state present, one raw extra argument. -/
theorem c4_witness :
    changedFlag [] "present" ["--x"] = true
    ∧ warningsOf ["--x"] = ["changes are always assumed when using argv"] := by
  refine ⟨?_, ?_⟩
  · exact (c4_changed_iff_and_single_warning [] "present" ["--x"]).1.mpr
      (Or.inr ⟨by decide, by decide⟩)
  · exact ((c4_changed_iff_and_single_warning [] "present" ["--x"]).2 (by decide)).1

/-- Two installed registry records for the latest-state counterexample. -/
def recA : PackageRecord := { recFoo with name := "a" }

def recB : PackageRecord := { recFoo with name := "b" }

def invTwoInstalled : Inventory := [("a", recA), ("b", recB)]

/-- A latest-state invocation naming two packages together with a git
source pinned to an exact revision. -/
def paramsTwoLatestGit : Params :=
  { presentDefaults with
      names := ["a", "b"]
      state := "latest"
      git := Option.some gitSpecRev }

/-- An executor collaborator whose outputs are never consulted on this
path. -/
def collabUnused : Collab := ⟨"", [], ""⟩

/-- Claim C5 counterexample: an invocation naming two packages with a git
source, run with state latest in check mode, completes successfully: the
multiple-package git failure is never raised, because the install routine
that contains the check is never invoked on this path. -/
theorem c5_counterexample_latest_check_mode_succeeds :
    paramsTwoLatestGit.names.length > 1
    ∧ (paramsTwoLatestGit.git).isSome = true
    ∧ exceptIsOk (mainLatestCheck paramsTwoLatestGit invTwoInstalled collabUnused false)
        = true := by
  refine ⟨by decide, by decide, rfl⟩

/-- Claim C5 theorem (amended): whenever the install routine itself runs
with a git source and more than one target package (either in the
explicit package list or in the requested names), it fails with the
multiple-git-installs message before the command is handed to the
executor, so no subprocess is executed, in check mode or not. -/
theorem c5_install_multi_git_fails_before_any_exec (p : Params)
    (packages : Option (List String)) (cm : Bool) (g : PyDict)
    (hg : p.git = Option.some g) (hne : g ≠ [])
    (hmulti : ((match packages with
                | Option.some l => decide (l ≠ []) && decide (l.length > 1)
                | Option.none => false) || decide (p.names.length > 1)) = true) :
    installRun p packages cm =
      (Except.error "Cannot do multiple git installs at a time. Please specify only one package.", []) := by
  have hcmd : installCmd p packages =
      Except.error "Cannot do multiple git installs at a time. Please specify only one package." := by
    unfold installCmd
    rw [hg]
    simp only [hne, ne_eq, not_false_eq_true, decide_eq_true_eq, if_true, decide_not]
    simp only [ne_eq, decide_not] at hmulti
    rw [if_pos hmulti]
  unfold installRun
  rw [hcmd]

/-- A present-state invocation naming two packages with a git source. -/
def paramsTwoPresentGit : Params :=
  { presentDefaults with names := ["a", "b"], git := Option.some gitSpecRev }

/-- Witness for the amended claim C5 theorem: two requested names with a
git source, outside check mode. -/
theorem c5_witness :
    installRun paramsTwoPresentGit Option.none false =
      (Except.error "Cannot do multiple git installs at a time. Please specify only one package.", []) :=
  c5_install_multi_git_fails_before_any_exec paramsTwoPresentGit
    Option.none false gitSpecRev rfl (by decide) (by decide)

/-! ## Lemmas about the state present comparison -/

/-- When some requested name is absent from the inventory, building
git_installed_fields fails (the KeyError of the dict comprehension). -/
theorem gitInstalledFields_fails_of_absent (p : Params) (inv : Inventory) :
    ∀ (ns : List String) (n : String), n ∈ ns → alookup n inv = Option.none →
      exceptIsOk (gitInstalledFields p inv ns) = false := by
  intro ns
  induction ns with
  | nil => intro n hn; exact absurd hn (List.not_mem_nil n)
  | cons m rest ih =>
    intro n hn habs
    rcases List.mem_cons.mp hn with heq | hrest
    · subst heq
      simp only [gitInstalledFields, habs, exceptIsOk]
    · cases hm : alookup m inv with
      | none => simp only [gitInstalledFields, hm, exceptIsOk]
      | some r =>
        have := ih n hrest habs
        cases hrec : gitInstalledFields p inv rest with
        | error e => simp only [gitInstalledFields, hm, hrec, exceptIsOk]
        | ok acc => rw [hrec] at this; simp [exceptIsOk] at this

/-- When every requested name is installed, git_installed_fields is built
successfully. -/
theorem gitInstalledFields_ok_of_all_installed (p : Params) (inv : Inventory) :
    ∀ (ns : List String), (∀ n ∈ ns, (alookup n inv).isSome) →
      ∃ l, gitInstalledFields p inv ns = Except.ok l := by
  intro ns
  induction ns with
  | nil => intro _; exact ⟨[], rfl⟩
  | cons m rest ih =>
    intro h
    have hm := h m (List.mem_cons_self m rest)
    cases hmv : alookup m inv with
    | none => rw [hmv] at hm; simp at hm
    | some r =>
      obtain ⟨l, hl⟩ := ih (fun n hn => h n (List.mem_cons_of_mem m hn))
      exact ⟨(m, restrictGit p r) :: l, by simp only [gitInstalledFields, hmv, hl]⟩

/-- Claim C1 theorem (the code on the failing inputs): for state present,
any invocation naming a package that is absent from the inventory fails
while building git_installed_fields, instead of partitioning the names
with the absent package in the action set.  This holds whether or not a
git constraint was supplied. -/
theorem c1_absent_name_fails_with_keyerror (p : Params) (inv : Inventory)
    (n : String) (hstate : p.state = "present") (hn : n ∈ p.names)
    (habs : alookup n inv = Option.none) :
    exceptIsOk (toInstall p inv) = false := by
  have h := gitInstalledFields_fails_of_absent p inv p.names n hn habs
  unfold toInstall
  cases hgif : gitInstalledFields p inv p.names with
  | error e => simp [exceptIsOk]
  | ok gif => rw [hgif] at h; simp [exceptIsOk] at h

/-- A present-state invocation naming one package, without a git
constraint. -/
def paramsLudusavi : Params := { presentDefaults with names := ["ludusavi"] }

/-- The same invocation with a git constraint supplied. -/
def paramsLudusaviGit : Params :=
  { presentDefaults with names := ["ludusavi"], git := Option.some gitSpecTag }

/-- Witness for the claim C1 theorem: a fresh inventory and one requested
package, without and with a git constraint. -/
theorem c1_witness :
    exceptIsOk (toInstall paramsLudusavi []) = false
    ∧ exceptIsOk (toInstall paramsLudusaviGit []) = false := by
  constructor
  · exact c1_absent_name_fails_with_keyerror paramsLudusavi [] "ludusavi" rfl
      (by decide) rfl
  · exact c1_absent_name_fails_with_keyerror paramsLudusaviGit [] "ludusavi" rfl
      (by decide) rfl

/-- Claim C2 theorem (the code on the failing inputs): when the desired
default_features flag is false, the default-features check of the
comparison never fires, whatever the installed flag is: with no other
constraint set, every installed requested package is reported satisfied,
including packages whose installed record carries default features. -/
theorem c2_default_features_false_never_triggers (p : Params) (inv : Inventory)
    (hdf : p.default_features = false) (hv : p.version = Option.none)
    (hg : p.git = Option.none) (hf : p.features = []) (ha : p.argv = [])
    (hinst : ∀ n ∈ p.names, (alookup n inv).isSome) :
    toInstall p inv = Except.ok [] := by
  obtain ⟨gif, hgif⟩ := gitInstalledFields_ok_of_all_installed p inv p.names hinst
  unfold toInstall
  rw [hgif]
  dsimp only
  congr 1
  rw [List.filter_eq_nil_iff]
  intro n hn
  have := hinst n hn
  cases hr : alookup n inv with
  | none => rw [hr] at this; simp at this
  | some r =>
    simp [needsAction, hv, hg, hf, ha, hdf, strOptTruthy]

/-- The inventory holding foo installed with default features. -/
def invFooDefault : Inventory := [("foo", recFoo)]

/-- A present-state invocation for foo asking for default features to be
disabled. -/
def paramsFooNoDefault : Params :=
  { presentDefaults with names := ["foo"], default_features := false }

/-- Witness for the claim C2 theorem: foo is installed with default
features, the invocation asks for default_features false, and yet nothing
is scheduled for installation. -/
theorem c2_witness :
    toInstall paramsFooNoDefault invFooDefault = Except.ok []
    ∧ alookup "foo" invFooDefault = Option.some recFoo
    ∧ recFoo.default_features = Option.some true
    ∧ paramsFooNoDefault.default_features = false := by
  refine ⟨?_, by decide, by decide, by decide⟩
  exact c2_default_features_false_never_triggers paramsFooNoDefault invFooDefault
    rfl rfl rfl rfl rfl (by decide)

/-- The sym_diff loop never adds a name when both inventories are the
same. -/
theorem symDiffAux_self (inv : Inventory) :
    ∀ (recs : List PackageRecord) (acc : List String),
      symDiffAux inv inv recs acc = acc := by
  intro recs
  induction recs with
  | nil => intro acc; rfl
  | cons r rest ih =>
    intro acc
    unfold symDiffAux
    cases h : alookup r.name inv with
    | none => simpa using ih acc
    | some x => simpa [h] using ih acc

/-- Diffing an inventory against itself yields no names. -/
theorem symDiff_self (inv : Inventory) : symDiff inv inv = [] :=
  symDiffAux_self inv (unionRecords inv inv) []

/-- Claim C9 theorem (amended): for state present with no version, git,
features or extra arguments, when every requested package is installed
and each installed record carries default features (matching the default
of the default_features parameter), every package is reported satisfied,
the diff of the unchanged inventory against itself is empty, and the
changed flag is false. -/
theorem c9_present_idempotent (p : Params) (inv : Inventory)
    (hstate : p.state = "present") (hv : p.version = Option.none)
    (hg : p.git = Option.none) (hf : p.features = []) (ha : p.argv = [])
    (hdf : p.default_features = true)
    (hinst : ∀ n ∈ p.names, ∃ r, alookup n inv = Option.some r
      ∧ r.default_features = Option.some true) :
    toInstall p inv = Except.ok []
    ∧ symDiff inv inv = []
    ∧ changedFlag [] p.state p.argv = false := by
  refine ⟨?_, symDiff_self inv, by simp [changedFlag, ha]⟩
  have hins : ∀ n ∈ p.names, (alookup n inv).isSome := by
    intro n hn
    obtain ⟨r, hr, _⟩ := hinst n hn
    simp [hr]
  obtain ⟨gif, hgif⟩ := gitInstalledFields_ok_of_all_installed p inv p.names hins
  unfold toInstall
  rw [hgif]
  dsimp only
  congr 1
  rw [List.filter_eq_nil_iff]
  intro n hn
  obtain ⟨r, hr, hrdf⟩ := hinst n hn
  simp [needsAction, hr, hv, hg, hf, ha, hdf, hrdf, strOptTruthy]

/-- Witness for the amended claim C9 theorem: foo installed with default
features and requested with every constraint at its default. -/
theorem c9_witness :
    toInstall paramsFooPlain invFooDefault = Except.ok []
    ∧ symDiff invFooDefault invFooDefault = []
    ∧ changedFlag [] paramsFooPlain.state paramsFooPlain.argv = false := by
  have h := c9_present_idempotent paramsFooPlain invFooDefault rfl rfl rfl rfl rfl rfl
    (by
      intro n hn
      have hn2 : n = "foo" := by simpa [paramsFooPlain, presentDefaults] using hn
      subst hn2
      exact ⟨recFoo, rfl, rfl⟩)
  exact ⟨h.1, h.2.1, by simpa using h.2.2⟩

/-! ## Membership characterisation of the differ -/

/-- Membership after a set insertion. -/
theorem addName_mem (m n : String) (l : List String) :
    m ∈ addName n l ↔ m = n ∨ m ∈ l := by
  unfold addName
  by_cases h : n ∈ l
  · simp only [h, if_true]
    constructor
    · exact Or.inr
    · rintro (rfl | hm)
      · exact h
      · exact hm
  · simp [h, List.mem_append, or_comm]

/-- Membership after a record-set insertion. -/
theorem addRec_mem (m r : PackageRecord) (acc : List PackageRecord) :
    m ∈ addRec acc r ↔ m ∈ acc ∨ m = r := by
  unfold addRec
  by_cases h : r ∈ acc
  · simp only [h, if_true]
    constructor
    · exact Or.inl
    · rintro (hm | rfl)
      · exact hm
      · exact h
  · simp [h, List.mem_append]

/-- Membership in the union fold. -/
theorem foldl_addRec_mem (m : PackageRecord) :
    ∀ (l acc : List PackageRecord), m ∈ l.foldl addRec acc ↔ m ∈ acc ∨ m ∈ l := by
  intro l
  induction l with
  | nil => intro acc; simp
  | cons r rest ih =>
    intro acc
    simp only [List.foldl_cons, ih (addRec acc r), addRec_mem, List.mem_cons]
    tauto

/-- Membership in the deduplicated union of record values. -/
theorem unionRecords_mem (m : PackageRecord) (b a : Inventory) :
    m ∈ unionRecords b a ↔ m ∈ b.map Prod.snd ∨ m ∈ a.map Prod.snd := by
  unfold unionRecords
  rw [foldl_addRec_mem]
  simp

/-- A successful lookup comes from a pair of the list. -/
theorem alookup_mem {α : Type} (k : String) (v : α) :
    ∀ (l : List (String × α)), alookup k l = Option.some v → (k, v) ∈ l := by
  intro l
  induction l with
  | nil => intro h; simp [alookup] at h
  | cons kv rest ih =>
    intro h
    obtain ⟨k2, v2⟩ := kv
    simp only [alookup] at h
    split at h
    · next heq =>
        injection h with h2
        subst h2
        subst heq
        exact List.mem_cons_self _ _
    · exact List.mem_cons_of_mem _ (ih h)

/-- In a well-formed inventory a looked-up record carries the key as its
name. -/
theorem alookup_name_of_wf (inv : Inventory) (hwf : wfInv inv = true)
    (n : String) (r : PackageRecord) (h : alookup n inv = Option.some r) :
    r.name = n := by
  have hmem := alookup_mem n r inv h
  have := (List.all_eq_true.mp hwf) (n, r) hmem
  simpa using this

/-- The contribution condition of one union record to the sym_diff set:
the record is not skipped (it is not the case that both sides hold the
name with equal records), and the member name comes from a side that
holds the name. -/
def contrib (before after : Inventory) (r : PackageRecord) (m : String) : Prop :=
  ¬ (∃ x, alookup r.name before = Option.some x ∧ alookup r.name after = Option.some x)
  ∧ ((∃ x, alookup r.name before = Option.some x ∧ x.name = m)
     ∨ (∃ y, alookup r.name after = Option.some y ∧ y.name = m))

/-- Membership in the sym_diff loop result. -/
theorem symDiffAux_mem (b a : Inventory) (m : String) :
    ∀ (recs : List PackageRecord) (acc : List String),
      m ∈ symDiffAux b a recs acc ↔ m ∈ acc ∨ ∃ r ∈ recs, contrib b a r m := by
  intro recs
  induction recs with
  | nil => intro acc; simp [symDiffAux]
  | cons r rest ih =>
    intro acc
    unfold symDiffAux
    simp only [List.mem_cons, exists_eq_or_imp]
    cases hbp : alookup r.name b with
    | none =>
      cases hap : alookup r.name a with
      | none =>
        dsimp only
        rw [ih acc]
        simp [contrib, hbp, hap]
      | some y =>
        dsimp only
        rw [ih (addName y.name acc)]
        simp only [addName_mem, contrib, hbp, hap]
        constructor
        · rintro ((rfl | hacc) | hrest)
          · exact Or.inr (Or.inl ⟨(by rintro ⟨z, hz, _⟩; cases hz), Or.inr ⟨y, rfl, rfl⟩⟩)
          · exact Or.inl hacc
          · exact Or.inr (Or.inr hrest)
        · rintro (hacc | (⟨_, (⟨z, hz, _⟩ | ⟨y2, hy2, hy2m⟩)⟩ | hrest))
          · exact Or.inl (Or.inr hacc)
          · cases hz
          · injection hy2 with hy3
            subst hy3
            exact Or.inl (Or.inl hy2m.symm)
          · exact Or.inr hrest
    | some x =>
      cases hap : alookup r.name a with
      | none =>
        dsimp only
        rw [ih (addName x.name acc)]
        simp only [addName_mem, contrib, hbp, hap]
        constructor
        · rintro ((rfl | hacc) | hrest)
          · exact Or.inr (Or.inl ⟨(by rintro ⟨z, _, hz2⟩; cases hz2), Or.inl ⟨x, rfl, rfl⟩⟩)
          · exact Or.inl hacc
          · exact Or.inr (Or.inr hrest)
        · rintro (hacc | (⟨_, (⟨x2, hx2, hx2m⟩ | ⟨z, hz, _⟩)⟩ | hrest))
          · exact Or.inl (Or.inr hacc)
          · injection hx2 with hx3
            subst hx3
            exact Or.inl (Or.inl hx2m.symm)
          · cases hz
          · exact Or.inr hrest
      | some y =>
        dsimp only
        by_cases hxy : x = y
        · rw [if_pos hxy, ih acc]
          subst hxy
          simp only [contrib, hbp, hap]
          constructor
          · rintro (hacc | hrest)
            · exact Or.inl hacc
            · exact Or.inr (Or.inr hrest)
          · rintro (hacc | (⟨hskip, _⟩ | hrest))
            · exact Or.inl hacc
            · exact absurd ⟨x, rfl, rfl⟩ hskip
            · exact Or.inr hrest
        · rw [if_neg hxy, ih (addName y.name (addName x.name acc))]
          simp only [addName_mem, contrib, hbp, hap]
          constructor
          · rintro ((rfl | (rfl | hacc)) | hrest)
            · exact Or.inr (Or.inl ⟨by
                rintro ⟨z, hz, hz2⟩
                injection hz with hz3
                injection hz2 with hz4
                exact hxy (hz3.trans hz4.symm), Or.inr ⟨y, rfl, rfl⟩⟩)
            · exact Or.inr (Or.inl ⟨by
                rintro ⟨z, hz, hz2⟩
                injection hz with hz3
                injection hz2 with hz4
                exact hxy (hz3.trans hz4.symm), Or.inl ⟨x, rfl, rfl⟩⟩)
            · exact Or.inl hacc
            · exact Or.inr (Or.inr hrest)
          · rintro (hacc | (⟨_, (⟨x2, hx2, hx2m⟩ | ⟨y2, hy2, hy2m⟩)⟩ | hrest))
            · exact Or.inl (Or.inr (Or.inr hacc))
            · injection hx2 with hx3
              subst hx3
              exact Or.inl (Or.inr (Or.inl hx2m.symm))
            · injection hy2 with hy3
              subst hy3
              exact Or.inl (Or.inl hy2m.symm)
            · exact Or.inr hrest

/-- The sym_diff set holds exactly the names whose lookup differs between
the two well-formed inventories (record inequality or presence change). -/
theorem symDiff_mem (b a : Inventory) (hb : wfInv b = true) (ha : wfInv a = true)
    (n : String) :
    n ∈ symDiff b a ↔ alookup n b ≠ alookup n a := by
  unfold symDiff
  rw [symDiffAux_mem]
  simp only [List.not_mem_nil, false_or]
  constructor
  · rintro ⟨r, _hr, hskip, hside⟩
    rcases hside with ⟨x, hx, hxm⟩ | ⟨y, hy, hym⟩
    · have hxr : x.name = r.name := alookup_name_of_wf b hb r.name x hx
      have hrn : r.name = n := by rw [← hxr]; exact hxm
      rw [hrn] at hx hskip
      intro heq
      exact hskip ⟨x, hx, by rw [← heq]; exact hx⟩
    · have hyr : y.name = r.name := alookup_name_of_wf a ha r.name y hy
      have hrn : r.name = n := by rw [← hyr]; exact hym
      rw [hrn] at hy hskip
      intro heq
      exact hskip ⟨y, by rw [heq]; exact hy, hy⟩
  · intro hne
    cases hbp : alookup n b with
    | some x =>
      have hxn : x.name = n := alookup_name_of_wf b hb n x hbp
      have hmem : x ∈ unionRecords b a := by
        rw [unionRecords_mem]
        exact Or.inl (List.mem_map_of_mem Prod.snd (alookup_mem n x b hbp))
      refine ⟨x, hmem, ?_, Or.inl ⟨x, ?_, hxn⟩⟩
      · rintro ⟨z, hz, hz2⟩
        rw [hxn] at hz hz2
        rw [hbp] at hz
        injection hz with hz3
        subst hz3
        exact hne (by rw [hbp, hz2])
      · rw [hxn]
        exact hbp
    | none =>
      cases hap : alookup n a with
      | none => exact absurd (by rw [hbp, hap]) hne
      | some y =>
        have hyn : y.name = n := alookup_name_of_wf a ha n y hap
        have hmem : y ∈ unionRecords b a := by
          rw [unionRecords_mem]
          exact Or.inr (List.mem_map_of_mem Prod.snd (alookup_mem n y a hap))
        refine ⟨y, hmem, ?_, Or.inr ⟨y, ?_, hyn⟩⟩
        · rintro ⟨z, hz, _⟩
          rw [hyn, hbp] at hz
          cases hz
        · rw [hyn]
          exact hap

/-- Claim C8 theorem (amended): over well-formed inventories, for any
possible iteration order of the sym_diff set, the differ emits one entry
per name whose records differ by full structural equality or whose
presence differs, and nothing else; the emitted list is the map of the
before and after lookups over that iteration order, so the set of entries
is determined by the inputs while their order follows the set iteration
order. -/
theorem c8_diff_entries_exact (b a : Inventory) (e : List String)
    (hb : wfInv b = true) (ha : wfInv a = true)
    (he : isEnumOf b a e = true) :
    (∀ n, n ∈ e ↔ alookup n b ≠ alookup n a)
    ∧ diffEntries b a e = e.map (fun n => DiffEntry.mk (alookup n b) (alookup n a)) := by
  have he2 := he
  simp only [isEnumOf, Bool.and_eq_true, List.all_eq_true, decide_eq_true_eq] at he2
  obtain ⟨⟨_hnd, h1⟩, h2⟩ := he2
  constructor
  · intro n
    constructor
    · intro hn
      exact (symDiff_mem b a hb ha n).mp (h1 n hn)
    · intro hn
      exact h2 n ((symDiff_mem b a hb ha n).mpr hn)
  · rfl

/-- Witness for the amended claim C8 theorem at concrete inventories with
one changed package. -/
theorem c8_witness :
    (∀ n, n ∈ ["p"] ↔ alookup n [("p", recPStats1)] ≠ alookup n [("p", recPStats2)])
    ∧ diffEntries [("p", recPStats1)] [("p", recPStats2)] ["p"]
        = List.map (fun n => DiffEntry.mk (alookup n [("p", recPStats1)])
            (alookup n [("p", recPStats2)])) ["p"] :=
  c8_diff_entries_exact [("p", recPStats1)] [("p", recPStats2)] ["p"]
    (by decide) (by decide) (by decide)

/-! ## The name filter of the state reader -/

/-- Lookup after a dict assignment. -/
theorem alookup_dinsert {α : Type} (n k : String) (v : α) :
    ∀ (d : List (String × α)),
      alookup n (dinsert k v d) = if k = n then Option.some v else alookup n d := by
  intro d
  induction d with
  | nil => simp [dinsert, alookup]
  | cons kv rest ih =>
    obtain ⟨k2, v2⟩ := kv
    simp only [dinsert]
    by_cases hk : k2 = k
    · rw [if_pos hk]
      subst hk
      simp only [alookup]
      by_cases hn2 : k2 = n <;> simp [hn2]
    · rw [if_neg hk]
      simp only [alookup]
      by_cases hn2 : k2 = n
      · have hkn : ¬ k = n := fun hkn => hk (hn2.trans hkn.symm)
        simp [hn2, hkn]
      · simp [hn2, ih]

/-- The membership invariant of the state reader loop: a name is present
in the final inventory exactly when it was present in the accumulator or
it is a requested name carried by some parsed entry of the remaining
state file. -/
theorem getInstalledAux_mem (names : List String) (stat : String → Option StatObj)
    (hn : names ≠ []) :
    ∀ (crates : List (String × CrateMeta)) (inv0 inv : Inventory),
      getInstalledAux names stat crates inv0 = Except.ok inv →
      ∀ n, (alookup n inv).isSome
        ↔ ((alookup n inv0).isSome ∨ (n ∈ names ∧ n ∈ parsedNames crates)) := by
  intro crates
  induction crates with
  | nil =>
    intro inv0 inv h n
    simp only [getInstalledAux, Except.ok.injEq] at h
    subst h
    simp [parsedNames]
  | cons c rest ih =>
    intro inv0 inv h n
    obtain ⟨pkgid, meta⟩ := c
    cases hsearch : pkgidSearch pkgid.data with
    | none =>
      simp only [getInstalledAux, hsearch] at h
      exact Except.noConfusion h
    | some parts =>
      simp only [getInstalledAux, hsearch] at h
      have hpn : parsedNames ((pkgid, meta) :: rest) = parts.name :: parsedNames rest := by
        simp [parsedNames, hsearch]
      rw [hpn]
      by_cases hskip : names ≠ [] ∧ parts.name ∉ names
      · rw [if_pos hskip] at h
        rw [ih inv0 inv h n]
        simp only [List.mem_cons]
        constructor
        · rintro (h0 | hrest)
          · exact Or.inl h0
          · exact Or.inr ⟨hrest.1, Or.inr hrest.2⟩
        · rintro (h0 | ⟨hna, (rfl | hrest)⟩)
          · exact Or.inl h0
          · exact absurd hna hskip.2
          · exact Or.inr ⟨hna, hrest⟩
      · rw [if_neg hskip] at h
        have hmemn : parts.name ∈ names := by
          rcases Decidable.not_and_iff_or_not.mp hskip with h1 | h2
          · exact absurd hn (by simpa using h1)
          · simpa using h2
        cases hbuild : buildRecord parts meta stat with
        | error e =>
          rw [hbuild] at h
          exact Except.noConfusion h
        | ok r =>
          rw [hbuild] at h
          rw [ih (dinsert parts.name r inv0) inv h n]
          rw [alookup_dinsert]
          simp only [List.mem_cons]
          by_cases hpn2 : parts.name = n
          · subst hpn2
            simp [hmemn]
          · rw [if_neg hpn2]
            constructor
            · rintro (h0 | hrest)
              · exact Or.inl h0
              · exact Or.inr ⟨hrest.1, Or.inr hrest.2⟩
            · rintro (h0 | ⟨hna, (heq | hrest)⟩)
              · exact Or.inl h0
              · exact absurd heq.symm hpn2
              · exact Or.inr ⟨hna, hrest⟩

/-- Claim C10 theorem: when at least one package name is requested, a
successful state read produces an inventory holding a record exactly for
those requested names that appear among the parsed state file entries;
installed packages outside the request are silently omitted. -/
theorem c10_inventory_contains_exactly_requested_names
    (crates : List (String × CrateMeta)) (names : List String)
    (stat : String → Option StatObj) (inv : Inventory)
    (hn : names ≠ []) (h : get_installed crates names stat = Except.ok inv) :
    ∀ n, (alookup n inv).isSome ↔ (n ∈ names ∧ n ∈ parsedNames crates) := by
  intro n
  have := getInstalledAux_mem names stat hn crates [] inv h n
  simpa [alookup] using this

/-- The state file entries used by the claim C10 witness: foo and bar
installed, with only foo requested. -/
def cratesFooBar : List (String × CrateMeta) :=
  [("foo 1.0.0 (registry+https://crates.io/)", ⟨[], false, [], []⟩),
   ("bar 2.0.0 (registry+https://crates.io/)", ⟨[], false, [], []⟩)]

/-- Witness for the claim C10 theorem: with foo and bar installed and
only foo requested, the read inventory answers membership per the
characterisation: foo is present, bar is omitted. -/
theorem c10_witness :
    ((alookup "foo" invFooDefault).isSome
      ↔ ("foo" ∈ ["foo"] ∧ "foo" ∈ parsedNames cratesFooBar))
    ∧ ((alookup "bar" invFooDefault).isSome
      ↔ ("bar" ∈ ["foo"] ∧ "bar" ∈ parsedNames cratesFooBar)) :=
  ⟨c10_inventory_contains_exactly_requested_names cratesFooBar ["foo"] statNone
      invFooDefault (by decide) rfl "foo",
   c10_inventory_contains_exactly_requested_names cratesFooBar ["foo"] statNone
      invFooDefault (by decide) rfl "bar"⟩
